import Mathlib

/-!
Verification development for the s3synccli repository (src/s3sync.py and its
near-duplicate src/s3upv2.py).  The Python code is shallowly embedded: JSON
metadata dictionaries become association lists, the remote object store
becomes an explicit state record, and each remote mutation performed by the
reconciler is recorded as an element of an action trace.
-/

namespace S3Sync

/-- A Python dict mapping attribute names to string values, in insertion
order.  This models the parsed form of the JSON metadata strings the scripts
pass around (json.loads / json.dumps round-trips are modelled by the map
itself). -/
abbrev AttrMap := List (String × String)

/-- Membership test of a key in an attribute map, as in Python k in d. -/
def dictContains (m : AttrMap) (k : String) : Bool :=
  m.any (fun p => p.1 == k)

/-- Python dict assignment d[k] = v: if the key is present its value is
replaced in place (insertion order kept), otherwise the pair is appended. -/
def dictInsert (m : AttrMap) (k v : String) : AttrMap :=
  if dictContains m k then
    m.map (fun p => if p.1 = k then (k, v) else p)
  else
    m ++ [(k, v)]

/-- Python dict lookup d.get(k): the value of the first pair whose key
matches, if any. -/
def dictLookup : AttrMap → String → Option String
  | [], _ => none
  | p :: rest, q => if q = p.1 then some p.2 else dictLookup rest q

/-- Embeds SmartS3Sync.parse_meta (src/s3sync.py lines 47-66, identical in
src/s3upv2.py lines 41-48).  The Python method reads the module-level
options dictionary entry for the metadata option, here passed explicitly as
optionsMetadata; the meta parameter of the method is never read, which is
mirrored by the unused metaArg argument.  The method sets mode to "509" for
the directory variant and to "33204" for the file variant, overwriting any
mode entry of the base mapping. -/
def parse_meta (optionsMetadata : AttrMap) (metaArg : String) : AttrMap × AttrMap :=
  let metadir := dictInsert optionsMetadata "mode" "509"
  let metafile := dictInsert optionsMetadata "mode" "33204"
  (metadir, metafile)

/-- Split a character list at the first occurrence of the slash character:
returns the parts before and after it, or none when no slash occurs.  This
models Python path.split with separator slash and maxsplit 1, which yields a
two-element list exactly when the separator occurs. -/
def splitFirstAux : List Char → Option (List Char × List Char)
  | [] => none
  | c :: rest =>
    if c = '/' then some ([], rest)
    else
      match splitFirstAux rest with
      | none => none
      | some (a, b) => some (c :: a, b)

/-- Embeds SmartS3Sync.parse_prefix (src/s3sync.py lines 68-82): everything
after the first slash when one occurs, otherwise the whole path.  (The name
of the Python method is kept up to the capitalisation of its second word.) -/
def parsePrefix (path : String) : String :=
  match splitFirstAux path.data with
  | none => path
  | some (_, b) => String.mk b

/-- Embeds the bucket computation of SmartS3Sync (src/s3sync.py line 40):
the part of the target before the first slash, or the whole target when no
slash occurs. -/
def bucketOf (path : String) : String :=
  match splitFirstAux path.data with
  | none => path
  | some (a, _) => String.mk a

/-- Python str.split with a one-character separator: splits on every
occurrence, keeping empty pieces, and yields a single empty piece on the
empty string. -/
def pySplit (sep : Char) : List Char → List (List Char)
  | [] => [[]]
  | c :: rest =>
    if c = sep then
      [] :: pySplit sep rest
    else
      match pySplit sep rest with
      | [] => [[c]]
      | l :: ls => (c :: l) :: ls

/-- Python str.strip with no argument: removes leading and trailing
whitespace. -/
def pyStrip (l : List Char) : List Char :=
  ((l.dropWhile Char.isWhitespace).reverse.dropWhile Char.isWhitespace).reverse

/-- Embeds SmartS3Sync.find_dirs (src/s3sync.py lines 84-107).  The method
pipes the stdout of find localdir -type d through sort -n; here findOutput
is the decoded stdout of that pipeline (empty when the local path does not
exist, since find then writes only to stderr).  The method strips the
output, splits it on newlines, and maps each line k to
key + k[len(localdir) + 1 :] + slash. -/
def find_dirs (key localdir : String) (findOutput : String) : List String :=
  let dLst := pySplit '\n' (pyStrip findOutput.data)
  dLst.map (fun k => String.mk (key.data ++ k.drop (localdir.length + 1) ++ ['/']))

/-- Outcome of the combined existence-and-metadata lookup of a remote key.
Modelled from the spec: the external HeadObject operation returns the
metadata mapping, a not-found error, or any other error (network,
permission, malformed response). -/
inductive LookupResult
  | ok (m : AttrMap)
  | errNotFound
  | errOther
deriving DecidableEq

/-- State of the remote object store: each key optionally holds an object
with its metadata mapping.  Modelled from the spec: faults marks keys whose
lookup fails for a reason other than absence (permission or network
failure); such a condition is a property of the environment and is not
cleared by writing the object. -/
structure Store where
  objects : String → Option AttrMap
  faults : String → Bool

/-- Combined effect of SmartS3Sync.key_exists followed by
SmartS3Sync.meta_check (src/s3sync.py lines 109-141): head-object on a
faulted key fails with a non-not-found error, on an absent key with
not-found, and otherwise returns the metadata mapping of the object. -/
def head_object (s : Store) (k : String) : LookupResult :=
  if s.faults k then
    LookupResult.errOther
  else
    match s.objects k with
    | none => LookupResult.errNotFound
    | some m => LookupResult.ok m

/-- Embeds SmartS3Sync.meta_check (src/s3sync.py lines 124-141): False when
the metadata mapping is empty, True otherwise. -/
def meta_check (m : AttrMap) : Bool :=
  if m.length = 0 then false else true

/-- Effect on the store of SmartS3Sync.create_key (src/s3sync.py lines
159-170), an s3api put-object call: the key now holds a zero-content object
carrying the given metadata.  A fault on the key is an environmental
condition and persists. -/
def put_object (s : Store) (k : String) (m : AttrMap) : Store :=
  { objects := fun q => if q = k then some m else s.objects q,
    faults := s.faults }

/-- Effect on the store of SmartS3Sync.meta_update (src/s3sync.py lines
143-157), an s3api copy-object call with metadata directive REPLACE: the
metadata of the object is fully replaced. -/
def copy_object_replace (s : Store) (k : String) (m : AttrMap) : Store :=
  { objects := fun q => if q = k then some m else s.objects q,
    faults := s.faults }

/-- One remote mutation or delegation performed by the program, recorded in
order of issue. -/
inductive Action
  | create (key : String) (meta : AttrMap)
  | update (key : String) (meta : AttrMap)
  | bulkSync (url : String) (meta : AttrMap)
deriving DecidableEq

/-- The key an action mutates, if any. -/
def actionKey : Action → Option String
  | Action.create k _ => some k
  | Action.update k _ => some k
  | Action.bulkSync _ _ => none

/-- One iteration of the loop of SmartS3Sync.verify_keys (src/s3sync.py
lines 180-196).  The try block performs the lookup and, when it returns a
metadata mapping, updates the metadata in place if the mapping is empty.
Any exception, whether the lookup failed because the key is absent or for
any other reason, is caught by the bare except clause, which creates the
key; the two error outcomes are therefore deliberately conflated here,
exactly as in the source. -/
def verify_key (s : Store) (k : String) (meta : AttrMap) : List Action × Store :=
  match head_object s k with
  | LookupResult.ok m =>
    if meta_check m then
      ([], s)
    else
      ([Action.update k meta], copy_object_replace s k meta)
  | LookupResult.errNotFound => ([Action.create k meta], put_object s k meta)
  | LookupResult.errOther => ([Action.create k meta], put_object s k meta)

/-- Embeds SmartS3Sync.verify_keys (src/s3sync.py lines 172-196): the loop
over the key list, threading the store state and concatenating the issued
actions in order. -/
def verify_keys (s : Store) (keys : List String) (meta : AttrMap) : List Action × Store :=
  match keys with
  | [] => ([], s)
  | k :: rest =>
    let r := verify_key s k meta
    let r2 := verify_keys r.2 rest meta
    (r.1 ++ r2.1, r2.2)

/-- The fields of a SmartS3Sync instance (src/s3sync.py lines 37-44). -/
structure SmartS3Sync where
  localdir : String
  s3path : String
  bucket : String
  key : String
  localToKeys : List String
  metadir : AttrMap
  metafile : AttrMap

/-- Embeds SmartS3Sync.__init__ (src/s3sync.py lines 37-44): the bucket is
the part of the target before the first slash, the key is the parsed
prefix, the key list comes from find_dirs, and the two metadata variants
come from parse_meta.  optionsMetadata is the parsed content of the
module-level metadata option; metaArg is the constructor argument that
parse_meta ignores; findOutput is the decoded stdout of the find pipeline. -/
def SmartS3Sync.mkInit (localdir s3path metaArg : String) (optionsMetadata : AttrMap)
    (findOutput : String) : SmartS3Sync :=
  let key := parsePrefix s3path
  let pm := parse_meta optionsMetadata metaArg
  { localdir := localdir, s3path := s3path, bucket := bucketOf s3path,
    key := key, localToKeys := find_dirs key localdir findOutput,
    metadir := pm.1, metafile := pm.2 }

/-- Embeds SmartS3Sync.sync (src/s3sync.py lines 207-221): first reconcile
the single-element list holding the parsed prefix, then reconcile the
enumerated key list without its first element, then run the bulk transfer
(aws s3 sync) on the s3 url with the file metadata variant. -/
def SmartS3Sync.sync (c : SmartS3Sync) (s : Store) : List Action × Store :=
  let r1 := verify_keys s [c.key] c.metadir
  let r2 := verify_keys r1.2 (c.localToKeys.drop 1) c.metadir
  (r1.1 ++ r2.1 ++ [Action.bulkSync ("s3://" ++ c.s3path) c.metafile], r2.2)

/-- A store holding no objects and reporting no lookup faults. -/
def emptyStore : Store :=
  { objects := fun _ => none, faults := fun _ => false }

/-- A store holding no objects in which the lookup of the key dest/ fails
with a non-not-found error (for example a permission denial). -/
def faultyStore : Store :=
  { objects := fun _ => none, faults := fun q => q == "dest/" }

/-- The directory metadata variant derived from the default base mapping of
the script (uid 6812, gid 6812). -/
def demoMetadir : AttrMap :=
  (parse_meta [("uid", "6812"), ("gid", "6812")] "").1

/-- Number of create actions for the given key carrying the given metadata
in a trace. -/
def countCreate (k : String) (meta : AttrMap) (acts : List Action) : Nat :=
  acts.countP (fun a => a == Action.create k meta)

/-- Number of update actions for the given key carrying the given metadata
in a trace. -/
def countUpdate (k : String) (meta : AttrMap) (acts : List Action) : Nat :=
  acts.countP (fun a => a == Action.update k meta)

/-- Number of remote mutations touching the given key in a trace. -/
def countFor (k : String) (acts : List Action) : Nat :=
  acts.countP (fun a => actionKey a == some k)

/-- Whether an action is a create or update carrying exactly the given
metadata mapping. -/
def dirMetaOnly (md : AttrMap) : Action → Bool
  | Action.create _ m => m == md
  | Action.update _ m => m == md
  | Action.bulkSync _ _ => false

/-- Whether every action of a trace is a create or update carrying exactly
the given metadata mapping. -/
def allDirMeta (md : AttrMap) (acts : List Action) : Bool :=
  acts.all (dirMetaOnly md)

/-- The key holds an object whose metadata mapping is non-empty. -/
def goodAt (k : String) (s : Store) : Prop :=
  ∃ m, s.objects k = some m ∧ m ≠ []

theorem dictLookup_map_assign (m : AttrMap) (k v : String) (h : dictContains m k = true) :
    dictLookup (m.map (fun p => if p.1 = k then (k, v) else p)) k = some v := by
  induction m with
  | nil => simp [dictContains] at h
  | cons p rest ih =>
    by_cases hp : p.1 = k
    · simp [dictLookup, hp]
    · have h2 : dictContains rest k = true := by
        simpa [dictContains, hp] using h
      simp [dictLookup, hp, Ne.symm hp]
      exact ih h2

theorem dictLookup_map_assign_ne (m : AttrMap) (k v q : String) (h : q ≠ k) :
    dictLookup (m.map (fun p => if p.1 = k then (k, v) else p)) q = dictLookup m q := by
  induction m with
  | nil => rfl
  | cons p rest ih =>
    by_cases hp : p.1 = k
    · simp [dictLookup, hp, h, ih]
    · by_cases hq : q = p.1
      · simp [dictLookup, hp, hq]
      · simp [dictLookup, hp, hq, ih]

theorem dictLookup_append_single_self (m : AttrMap) (k v : String)
    (h : dictContains m k = false) :
    dictLookup (m ++ [(k, v)]) k = some v := by
  induction m with
  | nil => simp [dictLookup]
  | cons p rest ih =>
    have hp : ¬p.1 = k := by
      intro e
      simp [dictContains, e] at h
    have h2 : dictContains rest k = false := by
      simpa [dictContains, hp] using h
    simp [dictLookup, Ne.symm hp]
    exact ih h2

theorem dictLookup_append_single_ne (m : AttrMap) (k v q : String) (h : q ≠ k) :
    dictLookup (m ++ [(k, v)]) q = dictLookup m q := by
  induction m with
  | nil => simp [dictLookup, h]
  | cons p rest ih =>
    by_cases hq : q = p.1
    · simp [dictLookup, hq]
    · simp [dictLookup, hq, ih]

theorem dictLookup_dictInsert_self (m : AttrMap) (k v : String) :
    dictLookup (dictInsert m k v) k = some v := by
  unfold dictInsert
  by_cases h : dictContains m k
  · simp only [h, if_true]
    exact dictLookup_map_assign m k v h
  · simp only [Bool.not_eq_true] at h
    simp only [h, Bool.false_eq_true, if_false]
    exact dictLookup_append_single_self m k v h

theorem dictLookup_dictInsert_ne (m : AttrMap) (k v q : String) (h : q ≠ k) :
    dictLookup (dictInsert m k v) q = dictLookup m q := by
  unfold dictInsert
  by_cases hc : dictContains m k
  · simp only [hc, if_true]
    exact dictLookup_map_assign_ne m k v q h
  · simp only [Bool.not_eq_true] at hc
    simp only [hc, Bool.false_eq_true, if_false]
    exact dictLookup_append_single_ne m k v q h

theorem dictInsert_ne_nil (m : AttrMap) (k v : String) : dictInsert m k v ≠ [] := by
  unfold dictInsert
  by_cases h : dictContains m k
  · simp only [h, if_true]
    cases m with
    | nil => simp [dictContains] at h
    | cons p rest => simp
  · simp only [Bool.not_eq_true] at h
    simp [h]

/-- Claim C3: for every base attribute mapping, the directory variant binds
mode to "509" and the file variant binds mode to "33204", both leaving every
other attribute of the base mapping unchanged; on the default base mapping
(uid 6812, gid 6812) the two variants are exactly the two sets given in the
spec, and a mode entry of the base mapping is always overwritten. -/
theorem parse_meta_policy (base : AttrMap) (mArg : String) :
    dictLookup (parse_meta base mArg).1 "mode" = some "509"
  ∧ dictLookup (parse_meta base mArg).2 "mode" = some "33204"
  ∧ (∀ k, k ≠ "mode" → dictLookup (parse_meta base mArg).1 k = dictLookup base k)
  ∧ (∀ k, k ≠ "mode" → dictLookup (parse_meta base mArg).2 k = dictLookup base k)
  ∧ parse_meta [("uid", "6812"), ("gid", "6812")] mArg =
      ([("uid", "6812"), ("gid", "6812"), ("mode", "509")],
       [("uid", "6812"), ("gid", "6812"), ("mode", "33204")]) := by
  refine ⟨dictLookup_dictInsert_self base "mode" "509",
    dictLookup_dictInsert_self base "mode" "33204",
    fun k hk => dictLookup_dictInsert_ne base "mode" "509" k hk,
    fun k hk => dictLookup_dictInsert_ne base "mode" "33204" k hk, ?_⟩
  have h0 : parse_meta [("uid", "6812"), ("gid", "6812")] "" =
      ([("uid", "6812"), ("gid", "6812"), ("mode", "509")],
       [("uid", "6812"), ("gid", "6812"), ("mode", "33204")]) := by decide
  exact h0

/-- Witness for parse_meta_policy: concrete evaluation on a base mapping
that already carries a mode entry. -/
theorem parse_meta_policy_witness :
    dictLookup (parse_meta [("uid", "6812"), ("mode", "777")] "x").1 "mode" = some "509"
  ∧ dictLookup (parse_meta [("uid", "6812"), ("mode", "777")] "x").1 "uid" = some "6812" :=
  ⟨(parse_meta_policy [("uid", "6812"), ("mode", "777")] "x").1,
   (parse_meta_policy [("uid", "6812"), ("mode", "777")] "x").2.2.1 "uid" (by decide)⟩

/-- Claim C10: parse_meta never reads its metadata argument; with the parsed
global options mapping held fixed, any two argument values produce identical
directory and file attribute sets. -/
theorem parse_meta_ignores_argument (optionsMetadata : AttrMap) (m1 m2 : String) :
    parse_meta optionsMetadata m1 = parse_meta optionsMetadata m2 := rfl

/-- Claim C8, counterexample: on the input "bucket" containing no slash the
translator yields the whole string, not the empty prefix claimed by the
spec. -/
theorem parsePrefix_bucket_counterexample : parsePrefix "bucket" ≠ "" := by decide

/-- Claim C8, amended: on "bucket/a/b" the translator yields "a/b"; on the
input "bucket" containing no slash it yields the full string "bucket"
(prefix equals bucket equals the whole input in the degenerate case). -/
theorem parsePrefix_amended :
    parsePrefix "bucket/a/b" = "a/b" ∧ parsePrefix "bucket" = "bucket" := by decide

/-- Claim C9: evaluating the target parser at the empty target shows that no
failure occurs; the empty string is accepted, yielding an empty bucket and
an empty prefix, and construction of the sync object proceeds. -/
theorem parse_empty_target_accepted :
    parsePrefix "" = ""
  ∧ bucketOf "" = ""
  ∧ (SmartS3Sync.mkInit "/data" "" "" [] "").bucket = ""
  ∧ (SmartS3Sync.mkInit "/data" "" "" [] "").key = "" := by decide

/-- Claim C4: on a LocalPath that does not exist the find pipeline writes
nothing to stdout, and the enumerator returns a one-element key list (the
bogus root entry) instead of failing; the result is indistinguishable from
the one produced for a valid empty directory (find output consisting of the
root line alone). -/
theorem find_dirs_invalid_path :
    find_dirs "dest/" "/data" "" = ["dest//"]
  ∧ find_dirs "dest/" "/data" "/data" = ["dest//"] := by decide

/-- Claim C1: on a key whose lookup fails with a non-not-found error (here a
fault such as a permission denial), the reconciler of the source code issues
a create call: the bare except clause conflates every lookup failure with
absence, so the error does not abort the key. -/
theorem verify_keys_conflates_errors :
    head_object faultyStore "dest/" = LookupResult.errOther
  ∧ (verify_keys faultyStore ["dest/"] demoMetadir).1
      = [Action.create "dest/" demoMetadir] := by decide

theorem verify_key_faults (s : Store) (k : String) (meta : AttrMap) :
    (verify_key s k meta).2.faults = s.faults := by
  unfold verify_key
  split <;> try rfl
  split <;> rfl

theorem verify_keys_faults (keys : List String) (s : Store) (meta : AttrMap) :
    (verify_keys s keys meta).2.faults = s.faults := by
  induction keys generalizing s with
  | nil => rfl
  | cons k rest ih =>
    show (verify_keys (verify_key s k meta).2 rest meta).2.faults = s.faults
    rw [ih, verify_key_faults]

theorem verify_key_objects_ne (s : Store) (k : String) (meta : AttrMap) (q : String)
    (h : q ≠ k) : (verify_key s k meta).2.objects q = s.objects q := by
  unfold verify_key
  split
  · split
    · rfl
    · show (copy_object_replace s k meta).objects q = s.objects q
      simp [copy_object_replace, h]
  · show (put_object s k meta).objects q = s.objects q
    simp [put_object, h]
  · show (put_object s k meta).objects q = s.objects q
    simp [put_object, h]

theorem verify_keys_objects_notMem (keys : List String) (s : Store) (meta : AttrMap)
    (q : String) (h : q ∉ keys) :
    (verify_keys s keys meta).2.objects q = s.objects q := by
  induction keys generalizing s with
  | nil => rfl
  | cons k rest ih =>
    have hq : q ≠ k := fun e => h (by simp [e])
    have hrest : q ∉ rest := fun m => h (List.mem_cons_of_mem _ m)
    show (verify_keys (verify_key s k meta).2 rest meta).2.objects q = s.objects q
    rw [ih _ hrest, verify_key_objects_ne s k meta q hq]

theorem head_object_verify_key_ne (s : Store) (k : String) (meta : AttrMap)
    (q : String) (h : q ≠ k) :
    head_object (verify_key s k meta).2 q = head_object s q := by
  unfold head_object
  rw [verify_key_faults, verify_key_objects_ne s k meta q h]

theorem verify_key_actions (s : Store) (k : String) (meta : AttrMap) :
    ∀ a ∈ (verify_key s k meta).1,
      a = Action.create k meta ∨ a = Action.update k meta := by
  unfold verify_key
  split
  · split
    · intro a ha
      cases ha
    · intro a ha
      simp at ha
      right
      exact ha
  · intro a ha
    simp at ha
    left
    exact ha
  · intro a ha
    simp at ha
    left
    exact ha

theorem verify_keys_actions (keys : List String) (s : Store) (meta : AttrMap) :
    ∀ a ∈ (verify_keys s keys meta).1,
      ∃ k, k ∈ keys ∧ (a = Action.create k meta ∨ a = Action.update k meta) := by
  induction keys generalizing s with
  | nil =>
    intro a ha
    cases ha
  | cons k rest ih =>
    intro a ha
    have hsplit : (verify_keys s (k :: rest) meta).1
        = (verify_key s k meta).1
          ++ (verify_keys (verify_key s k meta).2 rest meta).1 := rfl
    rw [hsplit] at ha
    rcases List.mem_append.1 ha with h1 | h2
    · exact ⟨k, by simp, verify_key_actions s k meta a h1⟩
    · obtain ⟨q, hq, hshape⟩ := ih _ a h2
      exact ⟨q, List.mem_cons_of_mem _ hq, hshape⟩

theorem countFor_eq_zero_of_notMem (k : String) (keys : List String) (s : Store)
    (meta : AttrMap) (h : k ∉ keys) :
    countFor k (verify_keys s keys meta).1 = 0 := by
  unfold countFor
  rw [List.countP_eq_zero]
  intro a ha
  obtain ⟨q, hq, hshape⟩ := verify_keys_actions keys s meta a ha
  have hne : q ≠ k := fun e => h (e ▸ hq)
  rcases hshape with rfl | rfl <;> simp [actionKey, hne]

theorem countCreate_eq_zero_of_notMem (k : String) (keys : List String) (s : Store)
    (meta : AttrMap) (h : k ∉ keys) :
    countCreate k meta (verify_keys s keys meta).1 = 0 := by
  unfold countCreate
  rw [List.countP_eq_zero]
  intro a ha
  obtain ⟨q, hq, hshape⟩ := verify_keys_actions keys s meta a ha
  have hne : q ≠ k := fun e => h (e ▸ hq)
  rcases hshape with rfl | rfl <;> simp [hne]

theorem countUpdate_eq_zero_of_notMem (k : String) (keys : List String) (s : Store)
    (meta : AttrMap) (h : k ∉ keys) :
    countUpdate k meta (verify_keys s keys meta).1 = 0 := by
  unfold countUpdate
  rw [List.countP_eq_zero]
  intro a ha
  obtain ⟨q, hq, hshape⟩ := verify_keys_actions keys s meta a ha
  have hne : q ≠ k := fun e => h (e ▸ hq)
  rcases hshape with rfl | rfl <;> simp [hne]

theorem countFor_append (k : String) (l1 l2 : List Action) :
    countFor k (l1 ++ l2) = countFor k l1 + countFor k l2 :=
  List.countP_append _ l1 l2

theorem countCreate_append (k : String) (meta : AttrMap) (l1 l2 : List Action) :
    countCreate k meta (l1 ++ l2) = countCreate k meta l1 + countCreate k meta l2 :=
  List.countP_append _ l1 l2

theorem countUpdate_append (k : String) (meta : AttrMap) (l1 l2 : List Action) :
    countUpdate k meta (l1 ++ l2) = countUpdate k meta l1 + countUpdate k meta l2 :=
  List.countP_append _ l1 l2

theorem counts_verify_key_ne (s : Store) (k1 : String) (meta : AttrMap) (k : String)
    (h : k ≠ k1) :
    countFor k (verify_key s k1 meta).1 = 0
  ∧ countCreate k meta (verify_key s k1 meta).1 = 0
  ∧ countUpdate k meta (verify_key s k1 meta).1 = 0 := by
  have hactions := verify_key_actions s k1 meta
  refine ⟨?_, ?_, ?_⟩ <;>
    first
    | (unfold countFor
       rw [List.countP_eq_zero]
       intro a ha
       rcases hactions a ha with rfl | rfl <;> simp [actionKey, Ne.symm h])
    | (unfold countCreate
       rw [List.countP_eq_zero]
       intro a ha
       rcases hactions a ha with rfl | rfl <;> simp [Ne.symm h])
    | (unfold countUpdate
       rw [List.countP_eq_zero]
       intro a ha
       rcases hactions a ha with rfl | rfl <;> simp [Ne.symm h])

/-- Claim C2: for every key of a duplicate-free reconciled key list, the
state of the remote store at the time the key is processed determines the
calls issued for it: a not-found lookup yields exactly one create call
carrying the passed attribute set (the directory set in both reconcile
phases of sync) and no other mutation of the key; an existing object with
empty metadata yields exactly one metadata-replace call and no other
mutation; an existing object with non-empty metadata yields no mutation of
the key at all. -/
theorem verify_keys_per_key_calls (keys : List String) (s : Store) (meta : AttrMap)
    (k : String) (hnd : keys.Nodup) (hk : k ∈ keys) :
    (head_object s k = LookupResult.errNotFound →
        countCreate k meta (verify_keys s keys meta).1 = 1
      ∧ countFor k (verify_keys s keys meta).1 = 1)
  ∧ (head_object s k = LookupResult.ok [] →
        countUpdate k meta (verify_keys s keys meta).1 = 1
      ∧ countFor k (verify_keys s keys meta).1 = 1)
  ∧ (∀ m, head_object s k = LookupResult.ok m → m ≠ [] →
        countFor k (verify_keys s keys meta).1 = 0) := by
  induction keys generalizing s with
  | nil => cases hk
  | cons k1 rest ih =>
    have hnd1 := List.nodup_cons.1 hnd
    have hsplit : (verify_keys s (k1 :: rest) meta).1
        = (verify_key s k1 meta).1
          ++ (verify_keys (verify_key s k1 meta).2 rest meta).1 := rfl
    rcases List.mem_cons.1 hk with rfl | hmem
    · refine ⟨?_, ?_, ?_⟩
      · intro h
        have hvk : (verify_key s k meta).1 = [Action.create k meta] := by
          simp [verify_key, h]
        constructor
        · rw [hsplit, countCreate_append, hvk,
            countCreate_eq_zero_of_notMem k rest _ meta hnd1.1]
          simp [countCreate]
        · rw [hsplit, countFor_append, hvk,
            countFor_eq_zero_of_notMem k rest _ meta hnd1.1]
          simp [countFor, actionKey]
      · intro h
        have hvk : (verify_key s k meta).1 = [Action.update k meta] := by
          simp [verify_key, h, meta_check]
        constructor
        · rw [hsplit, countUpdate_append, hvk,
            countUpdate_eq_zero_of_notMem k rest _ meta hnd1.1]
          simp [countUpdate]
        · rw [hsplit, countFor_append, hvk,
            countFor_eq_zero_of_notMem k rest _ meta hnd1.1]
          simp [countFor, actionKey]
      · intro m h hm
        have hvk : (verify_key s k meta).1 = [] := by
          simp [verify_key, h, meta_check, List.length_eq_zero, hm]
        rw [hsplit, countFor_append, hvk,
          countFor_eq_zero_of_notMem k rest _ meta hnd1.1]
        simp [countFor]
    · have hne : k ≠ k1 := fun e => hnd1.1 (e ▸ hmem)
      have hcounts := counts_verify_key_ne s k1 meta k hne
      have hho : head_object (verify_key s k1 meta).2 k = head_object s k :=
        head_object_verify_key_ne s k1 meta k hne
      have ihr := ih (verify_key s k1 meta).2 hnd1.2 hmem
      refine ⟨?_, ?_, ?_⟩
      · intro h
        have hr := ihr.1 (by rw [hho]; exact h)
        constructor
        · rw [hsplit, countCreate_append, hcounts.2.1, hr.1]
        · rw [hsplit, countFor_append, hcounts.1, hr.2]
      · intro h
        have hr := ihr.2.1 (by rw [hho]; exact h)
        constructor
        · rw [hsplit, countUpdate_append, hcounts.2.2, hr.1]
        · rw [hsplit, countFor_append, hcounts.1, hr.2]
      · intro m h hm
        have hr := ihr.2.2 m (by rw [hho]; exact h) hm
        rw [hsplit, countFor_append, hcounts.1, hr]

/-- Witness for verify_keys_per_key_calls: on the empty store the single
key of the list is reported not found and gets exactly one create call
carrying the directory attribute set. -/
theorem verify_keys_per_key_calls_witness :
    (["dest/"] : List String).Nodup
  ∧ "dest/" ∈ (["dest/"] : List String)
  ∧ head_object emptyStore "dest/" = LookupResult.errNotFound
  ∧ countCreate "dest/" demoMetadir (verify_keys emptyStore ["dest/"] demoMetadir).1 = 1
  ∧ countFor "dest/" (verify_keys emptyStore ["dest/"] demoMetadir).1 = 1 :=
  ⟨by decide, by decide, by decide,
   ((verify_keys_per_key_calls ["dest/"] emptyStore demoMetadir "dest/"
      (by decide) (by decide)).1 (by decide)).1,
   ((verify_keys_per_key_calls ["dest/"] emptyStore demoMetadir "dest/"
      (by decide) (by decide)).1 (by decide)).2⟩

theorem verify_key_objects_cases (s : Store) (k : String) (meta : AttrMap) (q : String) :
    (verify_key s k meta).2.objects q = s.objects q
  ∨ (verify_key s k meta).2.objects q = some meta := by
  by_cases hq : q = k
  · subst hq
    unfold verify_key
    split
    · split
      · left
        rfl
      · right
        simp [copy_object_replace]
    · right
      simp [put_object]
    · right
      simp [put_object]
  · left
    exact verify_key_objects_ne s k meta q hq

theorem goodAt_verify_keys_preserved (keys : List String) (s : Store) (meta : AttrMap)
    (hm : meta ≠ []) (k : String) (h : goodAt k s) :
    goodAt k (verify_keys s keys meta).2 := by
  induction keys generalizing s with
  | nil => exact h
  | cons k1 rest ih =>
    show goodAt k (verify_keys (verify_key s k1 meta).2 rest meta).2
    apply ih
    rcases verify_key_objects_cases s k1 meta k with hc | hc
    · obtain ⟨m, h1, h2⟩ := h
      exact ⟨m, by rw [hc, h1], h2⟩
    · exact ⟨meta, hc, hm⟩

theorem goodAt_verify_key_self (s : Store) (k : String) (meta : AttrMap)
    (hm : meta ≠ []) (hf : s.faults k = false) :
    goodAt k (verify_key s k meta).2 := by
  unfold verify_key
  cases o : s.objects k with
  | none =>
    have hh : head_object s k = LookupResult.errNotFound := by
      simp [head_object, hf, o]
    rw [hh]
    exact ⟨meta, by simp [put_object], hm⟩
  | some m =>
    have hh : head_object s k = LookupResult.ok m := by
      simp [head_object, hf, o]
    rw [hh]
    by_cases hmc : meta_check m
    · simp only [hmc, if_true]
      refine ⟨m, o, ?_⟩
      intro e
      subst e
      simp [meta_check] at hmc
    · simp only [hmc, Bool.false_eq_true, if_false]
      exact ⟨meta, by simp [copy_object_replace], hm⟩

theorem goodAt_after_verify_keys (keys : List String) (s : Store) (meta : AttrMap)
    (hm : meta ≠ []) (hf : ∀ q, s.faults q = false) :
    ∀ k, k ∈ keys → goodAt k (verify_keys s keys meta).2 := by
  induction keys generalizing s with
  | nil =>
    intro k hk
    cases hk
  | cons k1 rest ih =>
    intro k hk
    have hf1 : ∀ q, (verify_key s k1 meta).2.faults q = false := by
      intro q
      rw [verify_key_faults]
      exact hf q
    rcases List.mem_cons.1 hk with rfl | hmem
    · show goodAt k (verify_keys (verify_key s k meta).2 rest meta).2
      exact goodAt_verify_keys_preserved rest _ meta hm k
        (goodAt_verify_key_self s k meta hm (hf k))
    · exact ih _ hf1 k hmem

theorem verify_keys_no_action (keys : List String) (s : Store) (meta : AttrMap)
    (hf : ∀ q, s.faults q = false) (hg : ∀ k, k ∈ keys → goodAt k s) :
    (verify_keys s keys meta).1 = [] ∧ (verify_keys s keys meta).2 = s := by
  induction keys generalizing s with
  | nil => exact ⟨rfl, rfl⟩
  | cons k rest ih =>
    obtain ⟨m, ho, hm⟩ := hg k (by simp)
    have hvk : verify_key s k meta = ([], s) := by
      have hh : head_object s k = LookupResult.ok m := by
        simp [head_object, hf k, ho]
      have hmc : meta_check m = true := by
        simp [meta_check, List.length_eq_zero, hm]
      simp [verify_key, hh, hmc]
    have hsplit : verify_keys s (k :: rest) meta
        = ((verify_key s k meta).1 ++ (verify_keys (verify_key s k meta).2 rest meta).1,
           (verify_keys (verify_key s k meta).2 rest meta).2) := rfl
    rw [hsplit, hvk]
    have hrest := ih s hf (fun q hq => hg q (List.mem_cons_of_mem _ hq))
    simp [hrest.1, hrest.2]

/-- Claim C7, counterexample: on a store in which the lookup of the single
listed key persistently fails with a non-not-found error (for example a
permission denial that a put does not clear), the second reconciliation run
issues a create call again, so reconciliation is not idempotent for every
remote-store state. -/
theorem verify_keys_not_idempotent_on_fault :
    (verify_keys (verify_keys faultyStore ["dest/"] demoMetadir).2
        ["dest/"] demoMetadir).1 = [Action.create "dest/" demoMetadir]
  ∧ (verify_keys (verify_keys faultyStore ["dest/"] demoMetadir).2
        ["dest/"] demoMetadir).1 ≠ [] := by decide

/-- Claim C7, amended: for every key list and every remote-store state in
which no lookup fails with a non-not-found error, running the reconciler
with the policy-derived directory attribute set and then running it again
on the resulting state issues no create or metadata-update call on the
second run, and after the first run every listed key holds an object with
non-empty metadata. -/
theorem verify_keys_idempotent (keys : List String) (s : Store) (base : AttrMap)
    (mArg : String) (hf : ∀ q, s.faults q = false) :
    (verify_keys (verify_keys s keys (parse_meta base mArg).1).2 keys
        (parse_meta base mArg).1).1 = []
  ∧ ∀ k, k ∈ keys → goodAt k (verify_keys s keys (parse_meta base mArg).1).2 := by
  have hm : (parse_meta base mArg).1 ≠ [] := dictInsert_ne_nil base "mode" "509"
  have hf1 : ∀ q, (verify_keys s keys (parse_meta base mArg).1).2.faults q = false := by
    intro q
    rw [verify_keys_faults]
    exact hf q
  have hg := goodAt_after_verify_keys keys s (parse_meta base mArg).1 hm hf
  exact ⟨(verify_keys_no_action keys _ (parse_meta base mArg).1 hf1 hg).1, hg⟩

/-- Witness for verify_keys_idempotent: on the fault-free empty store the
second reconciliation run of the single-key list issues no action. -/
theorem verify_keys_idempotent_witness :
    emptyStore.faults "dest/" = false
  ∧ (verify_keys (verify_keys emptyStore ["dest/"]
        (parse_meta [("uid", "6812"), ("gid", "6812")] "").1).2 ["dest/"]
        (parse_meta [("uid", "6812"), ("gid", "6812")] "").1).1 = [] :=
  ⟨rfl, (verify_keys_idempotent ["dest/"] emptyStore
    [("uid", "6812"), ("gid", "6812")] "" (fun _ => rfl)).1⟩

theorem allDirMeta_verify_keys (keys : List String) (s : Store) (meta : AttrMap) :
    allDirMeta meta (verify_keys s keys meta).1 = true := by
  unfold allDirMeta
  rw [List.all_eq_true]
  intro a ha
  obtain ⟨k, hk, hshape⟩ := verify_keys_actions keys s meta a ha
  rcases hshape with rfl | rfl <;> simp [dirMetaOnly]

/-- Claim C5: the orchestrator trace is, in order, the reconciliation of the
single-element root-key list, then the reconciliation of the enumerated key
list without its root entry (threaded through the store state left by the
first phase), and finally the single bulk-transfer delegation; every action
of the two reconciliation phases carries exactly the directory attribute
set, and the file attribute set appears only on the final bulk-transfer
action.  In the source the three steps are sequential statements, so the
bulk transfer runs only after both reconciliations have completed without a
fatal error. -/
theorem sync_trace (c : SmartS3Sync) (s : Store) :
    (c.sync s).1 =
        (verify_keys s [c.key] c.metadir).1
      ++ (verify_keys (verify_keys s [c.key] c.metadir).2
            (c.localToKeys.drop 1) c.metadir).1
      ++ [Action.bulkSync ("s3://" ++ c.s3path) c.metafile]
  ∧ allDirMeta c.metadir
      ((verify_keys s [c.key] c.metadir).1
        ++ (verify_keys (verify_keys s [c.key] c.metadir).2
              (c.localToKeys.drop 1) c.metadir).1) = true
  ∧ (c.sync s).1.getLast? = some (Action.bulkSync ("s3://" ++ c.s3path) c.metafile) := by
  refine ⟨rfl, ?_, ?_⟩
  · unfold allDirMeta
    rw [List.all_append]
    have h1 := allDirMeta_verify_keys [c.key] s c.metadir
    have h2 := allDirMeta_verify_keys (c.localToKeys.drop 1)
      (verify_keys s [c.key] c.metadir).2 c.metadir
    unfold allDirMeta at h1 h2
    rw [h1, h2]
    rfl
  · show ((verify_keys s [c.key] c.metadir).1
      ++ (verify_keys (verify_keys s [c.key] c.metadir).2
            (c.localToKeys.drop 1) c.metadir).1
      ++ [Action.bulkSync ("s3://" ++ c.s3path) c.metafile]).getLast? = _
    exact List.getLast?_concat _

theorem splitFirstAux_eq_some (l : List Char) (a b : List Char)
    (h : splitFirstAux l = some (a, b)) : l = a ++ '/' :: b := by
  induction l generalizing a b with
  | nil => cases h
  | cons c rest ih =>
    unfold splitFirstAux at h
    by_cases hc : c = '/'
    · simp only [hc, if_true] at h
      obtain ⟨ha, hb⟩ := Prod.mk.injEq .. ▸ Option.some.injEq .. ▸ h
      subst hc
      rw [← ha, ← hb]
      rfl
    · simp only [hc, if_false] at h
      cases hr : splitFirstAux rest with
      | none => rw [hr] at h; cases h
      | some ab =>
        obtain ⟨a2, b2⟩ := ab
        rw [hr] at h
        simp only [Option.some.injEq, Prod.mk.injEq] at h
        obtain ⟨ha, hb⟩ := h
        rw [← ha, ← hb]
        show c :: rest = (c :: a2) ++ '/' :: b2
        rw [List.cons_append, ih a2 b2 hr]

/-- Claim C6, counterexample: for the target "bucket/a/b" the root key
passed to the reconciler is "a/b", whose last character is not a slash, and
on an empty store the first reconciliation action creates exactly that
slash-less directory key. -/
theorem root_key_missing_slash :
    (SmartS3Sync.mkInit "/data" "bucket/a/b" "" [("uid", "6812")] "/data").key = "a/b"
  ∧ "a/b".data.getLast? ≠ some '/'
  ∧ ((SmartS3Sync.mkInit "/data" "bucket/a/b" "" [("uid", "6812")] "/data").sync
        emptyStore).1.head?
      = some (Action.create "a/b" [("uid", "6812"), ("mode", "509")]) := by decide

/-- Claim C6, amended: every key produced by the directory enumerator ends
in a slash; the root key passed to the reconciler is the parsed prefix of
the user-supplied target, and it ends in a slash (or is empty) only
provided the target itself ends in a slash — for targets such as
"bucket/a/b" it is created without the trailing slash. -/
theorem keys_end_in_slash (key localdir findOutput s3path : String) :
    (∀ x, x ∈ find_dirs key localdir findOutput → x.data.getLast? = some '/')
  ∧ (s3path.data.getLast? = some '/' →
      parsePrefix s3path = "" ∨ (parsePrefix s3path).data.getLast? = some '/') := by
  constructor
  · intro x hx
    obtain ⟨k, hk, hmap⟩ := List.mem_map.1 hx
    rw [← hmap]
    show (key.data ++ k.drop (localdir.length + 1) ++ ['/']).getLast? = some '/'
    exact List.getLast?_concat _
  · intro h
    cases hsp : splitFirstAux s3path.data with
    | none =>
      right
      unfold parsePrefix
      rw [hsp]
      exact h
    | some ab =>
      obtain ⟨a, b⟩ := ab
      have hl := splitFirstAux_eq_some s3path.data a b hsp
      cases b with
      | nil =>
        left
        unfold parsePrefix
        rw [hsp]
      | cons c bs =>
        right
        unfold parsePrefix
        rw [hsp]
        show (c :: bs).getLast? = some '/'
        rw [hl, List.getLast?_append, List.getLast?_cons_cons] at h
        cases hy : (c :: bs).getLast? with
        | none =>
          have : (c :: bs) = [] := List.getLast?_eq_none_iff.1 hy
          cases this
        | some y =>
          rw [hy] at h
          exact h

/-- Witness for keys_end_in_slash: a concrete enumerated key ends in a
slash, and for the slash-terminated target "bkt/dest/" the parsed root key
ends in a slash. -/
theorem keys_end_in_slash_witness :
    "dest/a/" ∈ find_dirs "dest/" "/data" "/data\n/data/a"
  ∧ "dest/a/".data.getLast? = some '/'
  ∧ "bkt/dest/".data.getLast? = some '/'
  ∧ (parsePrefix "bkt/dest/" = "" ∨ (parsePrefix "bkt/dest/").data.getLast? = some '/') :=
  ⟨by decide,
   (keys_end_in_slash "dest/" "/data" "/data\n/data/a" "bkt/dest/").1 "dest/a/" (by decide),
   by decide,
   (keys_end_in_slash "dest/" "/data" "/data\n/data/a" "bkt/dest/").2 (by decide)⟩

end S3Sync
